import Mathlib

/-!
# flexithreadpool-cpp17: a shallow embedding of `ThreadPool` and `Thread`

Sources embedded: `inc/threadpool.h` (constants, `PoolMode`, `submitTask`) and
`src/threadpool.cpp` (constructor, destructor, setters, `start`, `threadHandler`,
`Thread`).

The pool is shared mutable state guarded by one mutex.  The embedding is a
transition system: the state `World` holds the fields of `ThreadPool`, the static
counter `Thread::generateId_`, one record per operating-system thread created by
`Thread::start`, the position of the caller inside `ThreadPool::start`, and two
observation logs (units invoked, condition variables notified).  The
transitions are:

* code that holds the mutex, one transition per stretch that runs without giving
  it up: `submitTask` taken at the instant its `wait_for` returns; for a worker,
  from taking the lock at the top of the loop up to the next blocking wait,
  `return` or the end of the locked scope, and from the return of a wait up to
  the same points;
* code that holds no mutex, one transition per statement: `ThreadPool::start`
  (the flag, `initThreadSize_`, `curThreadSize_`, in the first loop the
  construction of the `Thread` and `threads_.emplace`, in the second loop
  `threads_[i]->start()` and `threadIdelSize_++`, each a transition of its own, a
  loop test going with the statement that follows it), so that workers and
  submissions move between its statements; the
  flag write of the destructor; the unlocked tail of the worker loop (run the
  unit, `threadIdelSize_++`);
* the setters, each a single test of the flag followed by at most one write.

One call of `start` is in progress at a time.  `ThreadPool.start` is the same
code run from the call to the return with no other thread moving in between
(`run_startOps` relates the two).

Real time enters only through the values a wait returns: the `cv_status` of
`wait_for` and the measured idle duration are arguments of the wake-up
transition of a worker.  A wait gives up the mutex, so transitions of other
threads may come between a worker blocking and its wake-up, and `wait_for`
reports `timeout` whenever its deadline has passed by the time it returns with
the mutex re-taken.  A blocked worker may resume at any time (condition
variables permit spurious wake-ups).  `size_t` is `Nat` with explicit reduction
modulo `2 ^ 64` at every `++` and `--`.  Console output is left out.
-/

namespace FlexiThreadPool

/-! ## Constants and plain data -/

/-- Number of values of `size_t`. -/
def SIZE_MOD : Nat := 2 ^ 64

/-- Largest value of `int`, the type of the loop counters in `ThreadPool::start`. -/
def INT_MAX : Nat := 2147483647

/-- Header constant `TASK_MAX_THRESHOLD`. -/
def TASK_MAX_THRESHOLD : Nat := 2

/-- Header constant `THREAD_MAX_THRESHHOLD`. -/
def THREAD_MAX_THRESHHOLD : Nat := 1024

/-- Header constant `THREAD_IDLE_TIME`, in seconds. -/
def THREAD_IDLE_TIME : Nat := 2

/-- The operator `++` on a `size_t`. -/
def incr (x : Nat) : Nat := (x + 1) % SIZE_MOD

/-- The operator `--` on a `size_t`; at zero it wraps to `2 ^ 64 - 1`. -/
def decr (x : Nat) : Nat := (x + SIZE_MOD - 1) % SIZE_MOD

/-- The enumeration `PoolMode`. -/
inductive PoolMode where
  | MODE_FIXED
  | MODE_CACHED
deriving DecidableEq, Repr

/-- A unit of work: the lambda stored in `taskQue_`, identified by a number. -/
abbrev Task := Nat

/-- The class `Thread`; `func_` is always `threadHandler` bound to the pool. -/
structure Thread where
  threadId_ : Nat
deriving DecidableEq, Repr

/-- Member `Thread::getId`. -/
def Thread.getId (t : Thread) : Nat := t.threadId_

/-- Where an operating-system thread running `threadHandler` currently is. -/
inductive Phase where
  /-- about to take the lock at the top of the `for (;;)` body -/
  | atTop
  /-- blocked in `notEmpty_.wait_for(lock, 1s)` (line 116) -/
  | inWaitFor
  /-- blocked in `notEmpty_.wait(lock)` (line 135) -/
  | inWait
  /-- lock released with a dequeued unit in hand (lines 153 to 164) -/
  | running (task : Task)
  /-- returned from `threadHandler` -/
  | exited
deriving DecidableEq, Repr

/-- One detached operating-system thread created by `Thread::start`. -/
structure Worker where
  threadId : Nat
  phase : Phase
deriving DecidableEq, Repr

/-- The three condition variables of the pool. -/
inductive Cond where
  | notFull
  | notEmpty
  | exitCond
deriving DecidableEq, Repr

/-- The enumeration `std::cv_status`. -/
inductive CvStatus where
  | no_timeout
  | timeout
deriving DecidableEq, Repr

/-- Undefined behaviour the code can run into. -/
inductive Fault where
  /-- `threads_[k]->start()` when `threads_[k]` holds a null pointer -/
  | nullDeref
  /-- `i++` on an `int` equal to `INT_MAX` -/
  | intOverflow
deriving DecidableEq, Repr

/-- What the `std::future` returned by `submitTask` is bound to. -/
inductive Future where
  /-- shared state of the packaged task wrapping the callable of the caller; it is
  resolved when a worker invokes the queued unit -/
  | ofTask (task : Task)
  /-- shared state of the local packaged task `[]()->RType { return RType(); }`,
  already invoked at line 116: ready, holding `RType()` -/
  | readyDefault
deriving DecidableEq, Repr

/-- Where the thread that called `ThreadPool::start` is inside it. -/
inductive StartPc where
  /-- no call of `start` is in progress -/
  | notInStart
  /-- line 54 done (`isPoolRunning_ = true`), line 56 next -/
  | afterFlag (initThreadSize : Nat)
  /-- line 56 done (`initThreadSize_ = initThreadSize`), line 57 next -/
  | afterInit (initThreadSize : Nat)
  /-- line 57 done; at the test of the first loop with counter `i` -/
  | creating (i : Nat)
  /-- lines 62 and 64 done for counter `i` (a `Thread` with id `threadId` is
  constructed), line 65 next -/
  | registering (i : Nat) (threadId : Nat)
  /-- at the test of the second loop with counter `i` -/
  | launching (i : Nat)
  /-- line 72 done for counter `i` (`threads_[i]->start()`), line 73 next -/
  | counting (i : Nat)
deriving DecidableEq, Repr

/-- Fields of `ThreadPool` (source names), the static `Thread::generateId_`, the
operating-system threads, the position inside `start`, and the observation
logs. -/
structure World where
  /-- map from thread id to `Thread`, in insertion order -/
  threads_ : List (Nat × Thread)
  initThreadSize_ : Nat
  curThreadSize_ : Nat
  threadIdelSize_ : Nat
  threadSizeThreshHold_ : Nat
  /-- head of the list is the front of the queue -/
  taskQue_ : List Task
  taskSize_ : Nat
  taskQueMaxThreshHold_ : Nat
  poolMode_ : PoolMode
  isPoolRunning_ : Bool
  /-- static member `Thread::generateId_` -/
  generateId_ : Nat
  /-- threads created by `Thread::start`, in creation order; never shrinks -/
  workers : List Worker
  /-- units invoked by workers (line 161), in order -/
  ran : List Task
  /-- calls of `notify_all`, in order -/
  signals : List Cond
  /-- position of the caller inside `ThreadPool::start` -/
  startPc : StartPc
deriving DecidableEq, Repr

/-! ## The registry `threads_` -/

/-- Member `unordered_map::emplace`: nothing is inserted when the key is present. -/
def emplace (m : List (Nat × Thread)) (k : Nat) (v : Thread) : List (Nat × Thread) :=
  match m.lookup k with
  | some _ => m
  | none => m ++ [(k, v)]

/-- Member `unordered_map::erase` by key. -/
def erase (m : List (Nat × Thread)) (k : Nat) : List (Nat × Thread) :=
  m.filter (fun e => e.1 != k)

/-! ## `Thread` -/

/-- Member `Thread::start`: a detached thread runs `func_(threadId_)`. -/
def Thread.start (t : Thread) (w : World) : World :=
  { w with workers := w.workers ++ [{ threadId := t.threadId_, phase := Phase.atTop }] }

/-! ## `ThreadPool`: construction, teardown, configuration -/

/-- Constructor `ThreadPool::ThreadPool`, in a process whose `Thread::generateId_`
currently is `g` (zero until the first `Thread` is constructed). -/
def ThreadPool.construct (g : Nat) : World :=
  { threads_ := []
    initThreadSize_ := 0
    curThreadSize_ := 0
    threadIdelSize_ := 0
    threadSizeThreshHold_ := THREAD_MAX_THRESHHOLD
    taskQue_ := []
    taskSize_ := 0
    taskQueMaxThreshHold_ := TASK_MAX_THRESHOLD
    poolMode_ := PoolMode.MODE_FIXED
    isPoolRunning_ := false
    generateId_ := g
    workers := []
    ran := []
    signals := []
    startPc := StartPc.notInStart }

/-- Member `ThreadPool::checkRunningState`. -/
def ThreadPool.checkRunningState (w : World) : Bool := w.isPoolRunning_

/-- Member `ThreadPool::setPoolMode`. -/
def ThreadPool.setPoolMode (mode : PoolMode) (w : World) : World :=
  if ThreadPool.checkRunningState w then w
  else { w with poolMode_ := mode }

/-- Member `ThreadPool::setTaskQueMaxThreshHold`. -/
def ThreadPool.setTaskQueMaxThreshHold (threshhold : Nat) (w : World) : World :=
  if ThreadPool.checkRunningState w then w
  else { w with taskQueMaxThreshHold_ := threshhold }

/-- Member `ThreadPool::setThreadMaxThreshHold`. -/
def ThreadPool.setThreadMaxThreshHold (threshhold : Nat) (w : World) : World :=
  if ThreadPool.checkRunningState w then w
  else if w.poolMode_ = PoolMode.MODE_CACHED then
    { w with threadSizeThreshHold_ := threshhold }
  else w

/-- Destructor, line 10: `isPoolRunning_ = false` (before the lock is taken). -/
def ThreadPool.dtorFlag (w : World) : World :=
  { w with isPoolRunning_ := false }

/-- Destructor, lines 12 to 14: take the lock and `notEmpty_.notify_all()`.  The
wait on `exitCond_` that follows changes no field. -/
def ThreadPool.dtorNotify (w : World) : World :=
  { w with signals := w.signals ++ [Cond.notEmpty] }

/-! ## `ThreadPool::start` -/

/-- First loop of `start` (lines 59 to 67), the given number of iterations:
construct a `Thread` (taking `generateId_++` as its id) and `emplace` it. -/
def ThreadPool.startCreate : Nat → World → World
  | 0, w => w
  | k + 1, w =>
    let ptr : Thread := { threadId_ := w.generateId_ }
    let threadId := ptr.getId
    ThreadPool.startCreate k
      { w with generateId_ := incr w.generateId_
               threads_ := emplace w.threads_ threadId ptr }

/-- Second loop of `start` (lines 70 to 74) from counter value `i`, the given
number of iterations: `threads_[i]->start(); threadIdelSize_++`.  On a missing
key `threads_[i]` inserts a null pointer, and calling through it is a fault. -/
def ThreadPool.startLaunch : Nat → Nat → World → Except Fault World
  | _, 0, w => Except.ok w
  | i, k + 1, w =>
    match w.threads_.lookup i with
    | none => Except.error Fault.nullDeref
    | some th =>
      let w1 := th.start w
      ThreadPool.startLaunch (i + 1) k { w1 with threadIdelSize_ := incr w1.threadIdelSize_ }

/-- Member `ThreadPool::start`, run from the call to the return with no other
thread moving in between.  With `initThreadSize` above `INT_MAX` the `int`
counter overflows. -/
def ThreadPool.start (initThreadSize : Nat) (w : World) : Except Fault World :=
  if INT_MAX < initThreadSize then Except.error Fault.intOverflow
  else
    let w1 := { w with isPoolRunning_ := true
                       initThreadSize_ := initThreadSize
                       curThreadSize_ := initThreadSize }
    ThreadPool.startLaunch 0 initThreadSize (ThreadPool.startCreate initThreadSize w1)

/-- The call of `ThreadPool::start` and its first statement, line 54.  The
function takes no lock, so each of its statements is a transition of its own. -/
def ThreadPool.startCall (initThreadSize : Nat) (w : World) : Except Fault World :=
  if INT_MAX < initThreadSize then Except.error Fault.intOverflow
  else Except.ok { w with isPoolRunning_ := true
                          startPc := StartPc.afterFlag initThreadSize }

/-- The next statement of the call of `ThreadPool::start` in progress: line 56,
line 57, the construction of a `Thread` on line 62 (or the exit of the first
loop), line 65, line 72 (or the exit of the second loop), line 73. -/
def ThreadPool.startStep (w : World) : Except Fault World :=
  match w.startPc with
  | StartPc.notInStart => Except.ok w
  | StartPc.afterFlag n =>
    Except.ok { w with initThreadSize_ := n, startPc := StartPc.afterInit n }
  | StartPc.afterInit n =>
    Except.ok { w with curThreadSize_ := n, startPc := StartPc.creating 0 }
  | StartPc.creating i =>
    if i < w.initThreadSize_ then
      let ptr : Thread := { threadId_ := w.generateId_ }
      Except.ok { w with generateId_ := incr w.generateId_
                         startPc := StartPc.registering i ptr.getId }
    else Except.ok { w with startPc := StartPc.launching 0 }
  | StartPc.registering i threadId =>
    Except.ok { w with threads_ := emplace w.threads_ threadId { threadId_ := threadId }
                       startPc := StartPc.creating (i + 1) }
  | StartPc.launching i =>
    if i < w.initThreadSize_ then
      match w.threads_.lookup i with
      | none => Except.error Fault.nullDeref
      | some th => Except.ok { th.start w with startPc := StartPc.counting i }
    else Except.ok { w with startPc := StartPc.notInStart }
  | StartPc.counting i =>
    Except.ok { w with threadIdelSize_ := incr w.threadIdelSize_
                       startPc := StartPc.launching (i + 1) }

/-! ## `ThreadPool::submitTask` -/

/-- Member `ThreadPool::submitTask`, taken at the instant `notFull_.wait_for`
returns: the value of the predicate `taskQue_.size() < taskQueMaxThreshHold_` at
that instant is what `wait_for` returns. -/
def ThreadPool.submitTask (task : Task) (w : World) : Except Fault (World × Future) :=
  if ¬ (w.taskQue_.length < w.taskQueMaxThreshHold_) then
    Except.ok (w, Future.readyDefault)
  else
    let w1 := { w with taskQue_ := w.taskQue_ ++ [task]
                       taskSize_ := incr w.taskSize_
                       signals := w.signals ++ [Cond.notEmpty] }
    if w1.poolMode_ = PoolMode.MODE_CACHED ∧ w1.taskSize_ > w1.threadIdelSize_
        ∧ w1.curThreadSize_ < w1.threadSizeThreshHold_ then
      let ptr : Thread := { threadId_ := w1.generateId_ }
      let threadId := ptr.getId
      let w2 := { w1 with generateId_ := incr w1.generateId_
                          threads_ := emplace w1.threads_ threadId ptr }
      match w2.threads_.lookup threadId with
      | none => Except.error Fault.nullDeref
      | some th =>
        let w3 := th.start w2
        Except.ok ({ w3 with curThreadSize_ := incr w3.curThreadSize_
                             threadIdelSize_ := incr w3.threadIdelSize_ },
                   Future.ofTask task)
    else Except.ok (w1, Future.ofTask task)

/-! ## `ThreadPool::threadHandler` -/

/-- Record the phase of the `k`-th operating-system thread. -/
def setPhase (k : Nat) (threadId : Nat) (ph : Phase) (w : World) : World :=
  { w with workers := w.workers.set k { threadId := threadId, phase := ph } }

/-- Lines 102 to 153 with the lock held, entered at the test of the `while`:
either the queue is empty (shutdown exit, or block in a wait) or a unit is
dequeued and the lock released. -/
def ThreadPool.threadHandler_locked (k : Nat) (threadId : Nat) (w : World) : World :=
  match w.taskQue_ with
  | [] =>
    if ¬ w.isPoolRunning_ then
      setPhase k threadId Phase.exited
        { w with threads_ := erase w.threads_ threadId
                 signals := w.signals ++ [Cond.exitCond] }
    else if w.poolMode_ = PoolMode.MODE_CACHED then
      setPhase k threadId Phase.inWaitFor w
    else
      setPhase k threadId Phase.inWait w
  | task :: rest =>
    let w1 := { w with threadIdelSize_ := decr w.threadIdelSize_
                       taskQue_ := rest
                       taskSize_ := decr w.taskSize_ }
    let w2 := if rest.length > 0 then { w1 with signals := w1.signals ++ [Cond.notEmpty] } else w1
    setPhase k threadId (Phase.running task) { w2 with signals := w2.signals ++ [Cond.notFull] }

/-- Lines 116 to 131: `wait_for` has returned `status` with the lock re-taken, and
`dur` is the whole number of seconds since `lastTime`.  Either the worker is
reclaimed, or control returns to the test of the `while`.  The reclamation test
reads only `dur` and the two worker counters: neither `taskQue_` nor
`isPoolRunning_`, both of which may have changed while the lock was given up. -/
def ThreadPool.threadHandler_afterWaitFor (k : Nat) (threadId : Nat) (status : CvStatus)
    (dur : Nat) (w : World) : World :=
  if status = CvStatus.timeout ∧ dur ≥ THREAD_IDLE_TIME
      ∧ w.curThreadSize_ > w.initThreadSize_ then
    setPhase k threadId Phase.exited
      { w with threads_ := erase w.threads_ threadId
               curThreadSize_ := decr w.curThreadSize_
               threadIdelSize_ := decr w.threadIdelSize_ }
  else ThreadPool.threadHandler_locked k threadId w

/-- Lines 156 to 164, without the lock: invoke the unit, `threadIdelSize_++`. -/
def ThreadPool.threadHandler_finish (k : Nat) (threadId : Nat) (task : Task) (w : World) : World :=
  setPhase k threadId Phase.atTop
    { w with ran := w.ran ++ [task]
             threadIdelSize_ := incr w.threadIdelSize_ }

/-! ## The transition system -/

/-- One transition: a public operation, a statement of `start`, a line of the
destructor, or a move of the `k`-th operating-system thread. -/
inductive Op where
  | setPoolMode (mode : PoolMode)
  | setTaskQueMaxThreshHold (threshhold : Nat)
  | setThreadMaxThreshHold (threshhold : Nat)
  /-- `start(initThreadSize)` is called and runs line 54 -/
  | start (initThreadSize : Nat)
  /-- the call of `start` in progress runs its next statement -/
  | startStep
  | submitTask (task : Task)
  | dtorFlag
  | dtorNotify
  /-- worker `k` takes the lock at the top of its loop -/
  | workerLock (k : Nat)
  /-- worker `k` returns from `wait_for` with this status and idle duration -/
  | workerWakeFor (k : Nat) (status : CvStatus) (dur : Nat)
  /-- worker `k` returns from `wait` -/
  | workerWake (k : Nat)
  /-- worker `k` runs its unit and counts itself idle again -/
  | workerFinish (k : Nat)
deriving DecidableEq, Repr

/-- Arguments declared `size_t` hold values of `size_t`. -/
def Op.typed : Op → Bool
  | Op.setTaskQueMaxThreshHold t => decide (t < SIZE_MOD)
  | Op.setThreadMaxThreshHold t => decide (t < SIZE_MOD)
  | _ => true

/-- Phase of the `k`-th operating-system thread, with its thread id. -/
def workerAt (w : World) (k : Nat) : Option Worker := w.workers[k]?

/-- Successor state of one transition; `none` when the transition cannot be
taken: an ill-typed argument, a fault, a worker that is not at that point, a
call of `start` while one is in progress, or a statement of `start` while none
is. -/
def step (w : World) (op : Op) : Option World :=
  if ¬ op.typed then none
  else
    match op with
    | Op.setPoolMode mode => some (ThreadPool.setPoolMode mode w)
    | Op.setTaskQueMaxThreshHold t => some (ThreadPool.setTaskQueMaxThreshHold t w)
    | Op.setThreadMaxThreshHold t => some (ThreadPool.setThreadMaxThreshHold t w)
    | Op.start n =>
      match w.startPc with
      | StartPc.notInStart =>
        match ThreadPool.startCall n w with
        | Except.ok w1 => some w1
        | Except.error _ => none
      | _ => none
    | Op.startStep =>
      match w.startPc with
      | StartPc.notInStart => none
      | _ =>
        match ThreadPool.startStep w with
        | Except.ok w1 => some w1
        | Except.error _ => none
    | Op.submitTask task =>
      match ThreadPool.submitTask task w with
      | Except.ok r => some r.1
      | Except.error _ => none
    | Op.dtorFlag => some (ThreadPool.dtorFlag w)
    | Op.dtorNotify => some (ThreadPool.dtorNotify w)
    | Op.workerLock k =>
      match workerAt w k with
      | some { threadId := tid, phase := Phase.atTop } =>
        some (ThreadPool.threadHandler_locked k tid w)
      | _ => none
    | Op.workerWakeFor k status dur =>
      match workerAt w k with
      | some { threadId := tid, phase := Phase.inWaitFor } =>
        some (ThreadPool.threadHandler_afterWaitFor k tid status dur w)
      | _ => none
    | Op.workerWake k =>
      match workerAt w k with
      | some { threadId := tid, phase := Phase.inWait } =>
        some (ThreadPool.threadHandler_locked k tid w)
      | _ => none
    | Op.workerFinish k =>
      match workerAt w k with
      | some { threadId := tid, phase := Phase.running task } =>
        some (ThreadPool.threadHandler_finish k tid task w)
      | _ => none

/-- Run a sequence of transitions. -/
def run : World → List Op → Option World
  | w, [] => some w
  | w, op :: ops =>
    match step w op with
    | none => none
    | some w1 => run w1 ops

/-! ## Runs under a side condition, and the sets of transitions used below -/

/-- The side condition `G` holds at every transition of the run that is taken. -/
def Along (G : World → Op → Bool) : World → List Op → Bool
  | _, [] => true
  | w, op :: ops =>
    G w op && (match step w op with
      | none => true
      | some w1 => Along G w1 ops)

/-- The transition belongs to a call of `start`. -/
def Op.isStart : Op → Bool
  | Op.start _ => true
  | Op.startStep => true
  | _ => false

/-- A call of `start(n)` followed by all its statements, no other thread moving
in between: line 56, line 57, `2 * n + 1` transitions of the first loop and
`2 * n + 1` of the second. -/
def startOps (n : Nat) : List Op :=
  Op.start n :: List.replicate (4 * n + 4) Op.startStep

/-- Line 57 of `start` assigns `curThreadSize_` while it is still 0. -/
def startAtZero (w : World) : Op → Bool
  | Op.startStep =>
    match w.startPc with
    | StartPc.afterInit _ => decide (w.curThreadSize_ = 0)
    | _ => true
  | _ => true

/-- The transition is a line of the destructor. -/
def Op.isTeardown : Op → Bool
  | Op.dtorFlag => true
  | Op.dtorNotify => true
  | _ => false

/-- A capacity change that takes effect does not go below the number of units
queued at that moment. -/
def capacityKept (w : World) : Op → Bool
  | Op.setTaskQueMaxThreshHold t => w.isPoolRunning_ || decide (w.taskQue_.length ≤ t)
  | _ => true

/-! ## Counting workers, and the invariants carried through a run -/

/-- The worker holds a dequeued unit (it is not counted in `threadIdelSize_`). -/
def Phase.isBusy : Phase → Bool
  | Phase.running _ => true
  | _ => false

/-- The worker has not returned from `threadHandler`. -/
def Phase.isLive : Phase → Bool
  | Phase.exited => false
  | _ => true

/-- Number of workers holding a unit. -/
def countBusy (ws : List Worker) : Nat := ws.countP (fun x => x.phase.isBusy)

/-- Number of workers that have not returned. -/
def countLive (ws : List Worker) : Nat := ws.countP (fun x => x.phase.isLive)

/-- Fields that `start` leaves alone, as one tuple. -/
def World.frame (w : World) :=
  (w.threadSizeThreshHold_, w.taskQue_, w.taskSize_, w.taskQueMaxThreshHold_, w.poolMode_,
    w.ran, w.signals)

/-- The counter `taskSize_` agrees with the queue, and neither wraps. -/
def QueueInv (w : World) : Prop :=
  w.taskSize_ = w.taskQue_.length ∧ w.taskQue_.length < SIZE_MOD
    ∧ w.taskQueMaxThreshHold_ < SIZE_MOD

/-- Number of `threadIdelSize_++` the call of `start` in progress still owes to
workers already counted in `curThreadSize_`. -/
def StartPc.owed (init : Nat) : StartPc → Nat
  | StartPc.creating _ => init
  | StartPc.registering _ _ => init
  | StartPc.launching i => init - i
  | StartPc.counting i => init - i
  | _ => 0

/-- Number of workers counted in `curThreadSize_` that the call of `start` in
progress has not launched yet. -/
def StartPc.unlaunched (init : Nat) : StartPc → Nat
  | StartPc.creating _ => init
  | StartPc.registering _ _ => init
  | StartPc.launching i => init - i
  | StartPc.counting i => init - i - 1
  | _ => 0

/-- The position inside `start` is consistent with `initThreadSize_`. -/
def StartPc.wf (init : Nat) : StartPc → Prop
  | StartPc.afterFlag n => n ≤ INT_MAX
  | StartPc.afterInit n => n ≤ INT_MAX ∧ init = n
  | StartPc.launching i => i ≤ init
  | StartPc.counting i => i < init
  | _ => True

/-- Modulo `2 ^ 64` the idle counter is the worker counter minus the workers
holding a unit and the increments `start` still owes; every worker that has
not returned, and every worker `start` has yet to launch, is counted. -/
def CountInv (w : World) : Prop :=
  w.curThreadSize_ < SIZE_MOD ∧ w.threadSizeThreshHold_ < SIZE_MOD
    ∧ w.threadIdelSize_ < SIZE_MOD
    ∧ (w.threadIdelSize_ + countBusy w.workers + w.startPc.owed w.initThreadSize_) % SIZE_MOD
        = w.curThreadSize_
    ∧ countLive w.workers + w.startPc.unlaunched w.initThreadSize_ ≤ w.curThreadSize_
    ∧ w.startPc.wf w.initThreadSize_

/-- A running fixed pool with `n` workers and registry `reg`. -/
def FixedInv (n : Nat) (reg : List (Nat × Thread)) (w : World) : Prop :=
  w.isPoolRunning_ = true ∧ w.poolMode_ = PoolMode.MODE_FIXED ∧ w.curThreadSize_ = n
    ∧ w.initThreadSize_ = n ∧ w.threads_ = reg

/-- The registry holding the ids `g`, `g + 1`, ..., `g + k - 1` in creation order. -/
def idsFrom (g k : Nat) : List (Nat × Thread) :=
  (List.range' g k).map (fun i => (i, ({ threadId_ := i } : Thread)))

/-! ## Concrete pools and runs used as instances -/

/-- A pool whose queue holds as many units as the default capacity allows. -/
def fullPool : World :=
  { ThreadPool.construct 0 with taskQue_ := [11, 12], taskSize_ := 2 }

/-- The first pool of the process right after `start(1)` has returned. -/
def runningPool : World :=
  { ThreadPool.construct 0 with
      isPoolRunning_ := true, initThreadSize_ := 1, curThreadSize_ := 1, threadIdelSize_ := 1
      threads_ := [(0, { threadId_ := 0 })], generateId_ := 1
      workers := [{ threadId := 0, phase := Phase.atTop }] }

/-- A run that fills the queue up to a lowered capacity and lets a worker take a unit. -/
def boundedTrace : List Op :=
  [Op.submitTask 7, Op.setTaskQueMaxThreshHold 1] ++ startOps 1
    ++ [Op.submitTask 8, Op.workerLock 0]

/-- A fixed pool under load: accepted and rejected submissions, ignored setter
calls, and workers taking, finishing and waiting. -/
def fixedTrace : List Op :=
  [Op.submitTask 1, Op.setPoolMode PoolMode.MODE_CACHED, Op.submitTask 2, Op.submitTask 3,
    Op.workerLock 0, Op.workerLock 1, Op.workerFinish 0, Op.setThreadMaxThreshHold 9,
    Op.setTaskQueMaxThreshHold 0, Op.workerLock 0, Op.workerWake 0, Op.submitTask 4,
    Op.workerWake 0]

/-- A cached pool started with no initial worker: a submission spawns worker 0,
which runs the unit and then waits one second in `wait_for` without being
reclaimed. -/
def loneWorkerTrace : List Op :=
  [Op.setPoolMode PoolMode.MODE_CACHED] ++ startOps 0
    ++ [Op.submitTask 1, Op.workerLock 0, Op.workerFinish 0, Op.workerLock 0,
      Op.workerWakeFor 0 CvStatus.timeout 1]

/-- A fixed pool with one unit queued before `start(1)`: the worker launched at
line 72 takes the unit before line 73 counts it idle. -/
def earlyWorkerTrace : List Op :=
  [Op.submitTask 1, Op.start 1] ++ List.replicate 6 Op.startStep ++ [Op.workerLock 0]

/-- The same run continued: `start` counts the worker and returns, and the
worker finishes its unit. -/
def earlyWorkerDone : List Op :=
  earlyWorkerTrace ++ [Op.startStep, Op.startStep, Op.workerFinish 0]

open ThreadPool

/-! ## Arithmetic of `size_t`, the registry, and `start` -/

/-- The operator `++` below the top value adds one. -/
theorem incr_eq {x : Nat} (h : x + 1 < SIZE_MOD) : incr x = x + 1 := by
  unfold incr
  exact Nat.mod_eq_of_lt h

/-- The operator `--` above zero subtracts one. -/
theorem decr_eq {x : Nat} (h0 : 0 < x) (h : x < SIZE_MOD) : decr x = x - 1 := by
  unfold decr
  have : x + SIZE_MOD - 1 = (x - 1) + SIZE_MOD := by omega
  rw [this, Nat.add_mod_right]
  exact Nat.mod_eq_of_lt (by omega)

/-- The first loop of `start` touches only `threads_` and `generateId_`. -/
theorem startCreate_fields (k : Nat) (w : World) :
    (startCreate k w).frame = w.frame
      ∧ (startCreate k w).isPoolRunning_ = w.isPoolRunning_
      ∧ (startCreate k w).initThreadSize_ = w.initThreadSize_
      ∧ (startCreate k w).curThreadSize_ = w.curThreadSize_
      ∧ (startCreate k w).threadIdelSize_ = w.threadIdelSize_
      ∧ (startCreate k w).workers = w.workers := by
  induction k generalizing w with
  | zero => simp [startCreate]
  | succ k ih =>
    simp only [startCreate]
    have := ih { w with generateId_ := incr w.generateId_
                        threads_ := emplace w.threads_ (Thread.getId { threadId_ := w.generateId_ }) { threadId_ := w.generateId_ } }
    simpa [World.frame] using this

/-- The second loop of `start`, when it does not fault, adds one worker per iteration and counts it idle. -/
theorem startLaunch_fields (k : Nat) : ∀ (i : Nat) (w w1 : World),
    startLaunch i k w = Except.ok w1 →
    w1.frame = w.frame
      ∧ w1.isPoolRunning_ = w.isPoolRunning_
      ∧ w1.initThreadSize_ = w.initThreadSize_
      ∧ w1.curThreadSize_ = w.curThreadSize_
      ∧ w1.threads_ = w.threads_
      ∧ (w.threadIdelSize_ < SIZE_MOD → w1.threadIdelSize_ = (w.threadIdelSize_ + k) % SIZE_MOD)
      ∧ ∃ ids : List Nat, ids.length = k
          ∧ w1.workers = w.workers ++ ids.map (fun t => { threadId := t, phase := Phase.atTop }) := by
  induction k with
  | zero =>
    intro i w w1 h
    simp only [startLaunch, Except.ok.injEq] at h
    subst h
    refine ⟨rfl, rfl, rfl, rfl, rfl, ?_, [], rfl, by simp⟩
    intro hlt
    simp [Nat.mod_eq_of_lt hlt]
  | succ k ih =>
    intro i w w1 h
    simp only [startLaunch] at h
    cases hl : w.threads_.lookup i with
    | none => rw [hl] at h; simp at h
    | some th =>
      rw [hl] at h
      obtain ⟨h1, h2, h3, h4, h5, h6, ids, hlen, hws⟩ := ih _ _ _ h
      refine ⟨by simpa [World.frame, Thread.start] using h1, by simpa [Thread.start] using h2,
        by simpa [Thread.start] using h3, by simpa [Thread.start] using h4,
        by simpa [Thread.start] using h5, ?_, th.threadId_ :: ids, by simp [hlen], ?_⟩
      · intro _
        have h7 := h6 (by simp only [incr]; exact Nat.mod_lt _ (by decide))
        rw [h7]
        simp only [Thread.start, incr, Nat.mod_add_mod]
        congr 1
        omega
      · simpa [Thread.start] using hws

/-- What a call of `start` that does not fault leaves behind. -/
theorem start_ok_fields {n : Nat} {w w1 : World} (h : ThreadPool.start n w = Except.ok w1) :
    n ≤ INT_MAX ∧ w1.frame = w.frame
      ∧ w1.isPoolRunning_ = true
      ∧ w1.initThreadSize_ = n
      ∧ w1.curThreadSize_ = n
      ∧ (w.threadIdelSize_ < SIZE_MOD → w1.threadIdelSize_ = (w.threadIdelSize_ + n) % SIZE_MOD)
      ∧ ∃ ids : List Nat, ids.length = n
          ∧ w1.workers = w.workers ++ ids.map (fun t => { threadId := t, phase := Phase.atTop }) := by
  unfold ThreadPool.start at h
  by_cases hn : INT_MAX < n
  · rw [if_pos hn] at h; simp at h
  · rw [if_neg hn] at h
    obtain ⟨h1, h2, h3, h4, _, h6, h7⟩ := startLaunch_fields _ _ _ _ h
    obtain ⟨c1, c2, c3, c4, c5, c6⟩ := startCreate_fields n
      { w with isPoolRunning_ := true, initThreadSize_ := n, curThreadSize_ := n }
    refine ⟨Nat.le_of_not_lt hn, ?_, ?_, ?_, ?_, ?_, ?_⟩
    · rw [h1, c1]; rfl
    · rw [h2, c2]
    · rw [h3, c3]
    · rw [h4, c4]
    · rw [c5] at h6; exact h6
    · rw [c6] at h7; exact h7

/-- A call transition of `start` sets the flag and enters the function; it is
taken only while no call is in progress and the count fits an `int`. -/
theorem step_startCall {w w1 : World} {n : Nat} (h : step w (Op.start n) = some w1) :
    w.startPc = StartPc.notInStart ∧ n ≤ INT_MAX
      ∧ w1 = { w with isPoolRunning_ := true, startPc := StartPc.afterFlag n } := by
  unfold step at h
  simp only [Op.typed, not_true_eq_false, if_false] at h
  cases hp : w.startPc <;> rw [hp] at h <;> simp only at h <;> try contradiction
  unfold ThreadPool.startCall at h
  by_cases hn : INT_MAX < n
  · rw [if_pos hn] at h; simp at h
  · rw [if_neg hn] at h
    simp only [Option.some.injEq] at h
    exact ⟨rfl, Nat.le_of_not_lt hn, h.symm⟩

/-- A statement transition of `start` is `startStep` without fault, taken while a
call is in progress. -/
theorem step_startStep {w w1 : World} (h : step w Op.startStep = some w1) :
    ThreadPool.startStep w = Except.ok w1 ∧ w.startPc ≠ StartPc.notInStart := by
  unfold step at h
  simp only [Op.typed, not_true_eq_false, if_false] at h
  cases hp : w.startPc <;> rw [hp] at h <;> simp only at h <;> try contradiction
  all_goals
    cases hs : ThreadPool.startStep w with
    | error e => rw [hs] at h; simp at h
    | ok w2 =>
      rw [hs] at h
      simp only [Option.some.injEq] at h
      rw [h]
      exact ⟨rfl, by simp⟩

/-- No statement of `start` touches the queue, the thresholds or the mode. -/
theorem startStep_frame {w w1 : World} (h : ThreadPool.startStep w = Except.ok w1) :
    w1.frame = w.frame := by
  unfold ThreadPool.startStep at h
  cases hp : w.startPc <;> rw [hp] at h <;> simp only at h
  · simp only [Except.ok.injEq] at h; rw [← h]
  · simp only [Except.ok.injEq] at h; rw [← h]; rfl
  · simp only [Except.ok.injEq] at h; rw [← h]; rfl
  · split at h
    · simp only [Except.ok.injEq] at h; rw [← h]; rfl
    · simp only [Except.ok.injEq] at h; rw [← h]; rfl
  · simp only [Except.ok.injEq] at h; rw [← h]; rfl
  · split at h
    · split at h
      · simp at h
      · simp only [Except.ok.injEq] at h; rw [← h]; rfl
    · simp only [Except.ok.injEq] at h; rw [← h]; rfl
  · simp only [Except.ok.injEq] at h; rw [← h]; rfl

/-- The locked stretch of `threadHandler` leaves the configuration and the worker counter alone, and the registry too while the pool runs. -/
theorem locked_frame (k tid : Nat) (w : World) :
    (threadHandler_locked k tid w).curThreadSize_ = w.curThreadSize_
      ∧ (threadHandler_locked k tid w).initThreadSize_ = w.initThreadSize_
      ∧ (threadHandler_locked k tid w).threadSizeThreshHold_ = w.threadSizeThreshHold_
      ∧ (threadHandler_locked k tid w).poolMode_ = w.poolMode_
      ∧ (threadHandler_locked k tid w).isPoolRunning_ = w.isPoolRunning_
      ∧ (w.isPoolRunning_ = true → (threadHandler_locked k tid w).threads_ = w.threads_) := by
  unfold threadHandler_locked
  cases hq : w.taskQue_ with
  | nil =>
    dsimp only [setPhase]
    split
    · rename_i hr
      exact ⟨rfl, rfl, rfl, rfl, rfl, fun h => absurd h hr⟩
    · split <;> exact ⟨rfl, rfl, rfl, rfl, rfl, fun _ => rfl⟩
  | cons t rest =>
    dsimp only [setPhase]
    split <;> exact ⟨rfl, rfl, rfl, rfl, rfl, fun _ => rfl⟩

/-- The locked stretch of `threadHandler` keeps `taskSize_` equal to the queue length and never lengthens the queue. -/
theorem locked_queue (k tid : Nat) (w : World) (hI : QueueInv w) :
    QueueInv (threadHandler_locked k tid w)
      ∧ (threadHandler_locked k tid w).taskQue_.length ≤ w.taskQue_.length
      ∧ (threadHandler_locked k tid w).taskQueMaxThreshHold_ = w.taskQueMaxThreshHold_ := by
  obtain ⟨h1, h2, h3⟩ := hI
  unfold threadHandler_locked
  cases hq : w.taskQue_ with
  | nil =>
    simp only [hq] at h1 h2
    simp only [QueueInv, setPhase]
    split
    · simpa [hq, h1, h3] using h2
    · split <;> simpa [hq, h1, h3] using h2
  | cons t rest =>
    simp only [hq, List.length_cons] at h1 h2
    have hd : decr w.taskSize_ = rest.length := by
      rw [decr_eq (by omega) (by omega), h1]; rfl
    simp only [QueueInv, setPhase]
    split <;> simp [hd, h3] <;> omega

/-- Every transition keeps `QueueInv`, and keeps the queue within capacity unless a capacity change undercuts it. -/
theorem step_queue {w w1 : World} {op : Op} (hI : QueueInv w) (h : step w op = some w1) :
    QueueInv w1
      ∧ (capacityKept w op = true → w.taskQue_.length ≤ w.taskQueMaxThreshHold_ →
          w1.taskQue_.length ≤ w1.taskQueMaxThreshHold_) := by
  have hframe : ∀ w2 : World, w2.frame = w.frame →
      QueueInv w2 ∧ (w.taskQue_.length ≤ w.taskQueMaxThreshHold_ →
        w2.taskQue_.length ≤ w2.taskQueMaxThreshHold_) := by
    intro w2 hf
    simp only [World.frame, Prod.mk.injEq] at hf
    obtain ⟨_, f2, f3, f4, _⟩ := hf
    unfold QueueInv at *
    rw [f2, f3, f4]
    exact ⟨hI, fun hle => hle⟩
  by_cases hS : op.isStart = true
  · cases op <;> simp [Op.isStart] at hS
    · obtain ⟨_, _, e⟩ := step_startCall h
      have := hframe w1 (by rw [e]; rfl)
      exact ⟨this.1, fun _ => this.2⟩
    · have := hframe w1 (startStep_frame (step_startStep h).1)
      exact ⟨this.1, fun _ => this.2⟩
  unfold step at h
  by_cases ht : op.typed = true
  swap
  · simp [ht] at h
  simp only [ht, not_true_eq_false, if_false] at h
  cases op with
  | setPoolMode mode =>
    simp only [Option.some.injEq] at h; subst h
    unfold setPoolMode QueueInv at *
    split <;> simp_all
  | setTaskQueMaxThreshHold t =>
    simp only [Option.some.injEq] at h; subst h
    simp only [Op.typed, decide_eq_true_eq] at ht
    unfold setTaskQueMaxThreshHold QueueInv checkRunningState capacityKept at *
    split <;> simp_all
  | setThreadMaxThreshHold t =>
    simp only [Option.some.injEq] at h; subst h
    unfold setThreadMaxThreshHold QueueInv at *
    split
    · simp_all
    · split <;> simp_all
  | start n => simp [Op.isStart] at hS
  | startStep => simp [Op.isStart] at hS
  | submitTask task =>
    simp only at h
    cases hs : ThreadPool.submitTask task w with
    | error e => rw [hs] at h; simp at h
    | ok r =>
      rw [hs] at h
      simp only [Option.some.injEq] at h; subst h
      obtain ⟨h1, h2, h3⟩ := hI
      unfold ThreadPool.submitTask at hs
      by_cases hA : w.taskQue_.length < w.taskQueMaxThreshHold_
      · have hInc : incr w.taskSize_ = w.taskSize_ + 1 := incr_eq (by omega)
        rw [if_neg (by simpa using hA)] at hs
        simp only [hInc] at hs
        split at hs
        · split at hs
          · simp at hs
          · simp only [Except.ok.injEq] at hs; subst hs
            simp [QueueInv, Thread.start, h1, h3]; omega
        · simp only [Except.ok.injEq] at hs; subst hs
          simp [QueueInv, h1, h3]; omega
      · rw [if_pos (by simpa using hA)] at hs
        simp only [Except.ok.injEq] at hs; subst hs
        exact ⟨⟨h1, h2, h3⟩, fun _ hle => hle⟩
  | dtorFlag =>
    simp only [Option.some.injEq] at h; subst h
    exact ⟨hI, fun _ hle => hle⟩
  | dtorNotify =>
    simp only [Option.some.injEq] at h; subst h
    exact ⟨hI, fun _ hle => hle⟩
  | workerLock k =>
    simp only at h
    split at h
    · simp only [Option.some.injEq] at h; subst h
      obtain ⟨a, b, c⟩ := locked_queue k _ w hI
      exact ⟨a, fun _ hle => by rw [c]; omega⟩
    · simp at h
  | workerWakeFor k status dur =>
    simp only at h
    split at h
    · simp only [Option.some.injEq] at h; subst h
      unfold threadHandler_afterWaitFor
      split
      · exact ⟨hI, fun _ hle => hle⟩
      · obtain ⟨a, b, c⟩ := locked_queue k _ w hI
        exact ⟨a, fun _ hle => by rw [c]; omega⟩
    · simp at h
  | workerWake k =>
    simp only at h
    split at h
    · simp only [Option.some.injEq] at h; subst h
      obtain ⟨a, b, c⟩ := locked_queue k _ w hI
      exact ⟨a, fun _ hle => by rw [c]; omega⟩
    · simp at h
  | workerFinish k =>
    simp only at h
    split at h
    · simp only [Option.some.injEq] at h; subst h
      exact ⟨hI, fun _ hle => hle⟩
    · simp at h

/-- Replacing one element of a list changes a count by the difference of the two elements. -/
theorem countP_set (p : Worker → Bool) : ∀ (ws : List Worker) (k : Nat) (a b : Worker),
    ws[k]? = some a →
    (ws.set k b).countP p + (p a).toNat = ws.countP p + (p b).toNat := by
  intro ws
  induction ws with
  | nil => intro k a b h; simp at h
  | cons x xs ih =>
    intro k a b h
    cases k with
    | zero =>
      simp only [List.getElem?_cons_zero, Option.some.injEq] at h
      subst h
      simp only [List.set_cons_zero, List.countP_cons]
      cases p x <;> cases p b <;> simp
    | succ k =>
      simp only [List.getElem?_cons_succ] at h
      have := ih k a b h
      simp only [List.set_cons_succ, List.countP_cons]
      omega

/-- Effect of a phase change on the two worker counts. -/
theorem set_counts {ws : List Worker} {k : Nat} {a : Worker} (b : Worker) (h : ws[k]? = some a) :
    countBusy (ws.set k b) + a.phase.isBusy.toNat = countBusy ws + b.phase.isBusy.toNat
      ∧ countLive (ws.set k b) + a.phase.isLive.toNat = countLive ws + b.phase.isLive.toNat :=
  ⟨countP_set (fun x => x.phase.isBusy) ws k a b h, countP_set (fun x => x.phase.isLive) ws k a b h⟩

/-- Workers holding a unit have not returned. -/
theorem busy_le_live (ws : List Worker) : countBusy ws ≤ countLive ws := by
  apply List.countP_mono_left
  intro x _ hx
  cases hp : x.phase <;> simp_all [Phase.isBusy, Phase.isLive]

/-- Workers just started are live and hold no unit. -/
theorem countBusy_append_atTop (ws : List Worker) (ids : List Nat) :
    countBusy (ws ++ ids.map (fun t => { threadId := t, phase := Phase.atTop })) = countBusy ws
      ∧ countLive (ws ++ ids.map (fun t => { threadId := t, phase := Phase.atTop }))
          = countLive ws + ids.length := by
  induction ids generalizing ws with
  | nil => simp
  | cons i ids ih =>
    have e : ws ++ (i :: ids).map (fun t => ({ threadId := t, phase := Phase.atTop } : Worker))
        = (ws ++ [{ threadId := i, phase := Phase.atTop }])
            ++ ids.map (fun t => { threadId := t, phase := Phase.atTop }) := by simp
    rw [e, (ih _).1, (ih _).2]
    simp only [countBusy, countLive, List.countP_append, List.countP_cons, List.countP_nil,
      Phase.isBusy, Phase.isLive, List.length_cons]
    constructor <;> simp
    omega

/-- In a running fixed pool every transition other than `start` and teardown keeps `FixedInv`. -/
theorem step_fixed {n : Nat} {reg : List (Nat × Thread)} {w w1 : World} {op : Op}
    (hI : FixedInv n reg w) (hop : op.isStart = false) (hop2 : op.isTeardown = false)
    (h : step w op = some w1) : FixedInv n reg w1 := by
  obtain ⟨h1, h2, h3, h4, h5⟩ := hI
  unfold step at h
  by_cases ht : op.typed = true
  swap
  · simp [ht] at h
  simp only [ht, not_true_eq_false, if_false] at h
  cases op with
  | setPoolMode mode =>
    simp only [Option.some.injEq] at h; subst h
    simp only [setPoolMode, checkRunningState, h1, if_true]
    exact ⟨h1, h2, h3, h4, h5⟩
  | setTaskQueMaxThreshHold t =>
    simp only [Option.some.injEq] at h; subst h
    simp only [setTaskQueMaxThreshHold, checkRunningState, h1, if_true]
    exact ⟨h1, h2, h3, h4, h5⟩
  | setThreadMaxThreshHold t =>
    simp only [Option.some.injEq] at h; subst h
    simp only [setThreadMaxThreshHold, checkRunningState, h1, if_true]
    exact ⟨h1, h2, h3, h4, h5⟩
  | start n => simp [Op.isStart] at hop
  | startStep => simp [Op.isStart] at hop
  | dtorFlag => simp [Op.isTeardown] at hop2
  | dtorNotify => simp [Op.isTeardown] at hop2
  | submitTask task =>
    simp only at h
    cases hs : ThreadPool.submitTask task w with
    | error e => rw [hs] at h; simp at h
    | ok r =>
      rw [hs] at h
      simp only [Option.some.injEq] at h; subst h
      unfold ThreadPool.submitTask at hs
      split at hs
      · simp only [Except.ok.injEq] at hs; subst hs
        exact ⟨h1, h2, h3, h4, h5⟩
      · dsimp only at hs
        rw [if_neg (by rw [h2]; simp)] at hs
        simp only [Except.ok.injEq] at hs; subst hs
        exact ⟨h1, h2, h3, h4, h5⟩
  | workerLock k =>
    simp only at h
    split at h
    · simp only [Option.some.injEq] at h; subst h
      obtain ⟨a, b, _, c, d, e⟩ := locked_frame k _ w
      exact ⟨by rw [d]; exact h1, by rw [c]; exact h2, by rw [a]; exact h3, by rw [b]; exact h4,
        by rw [e h1]; exact h5⟩
    · simp at h
  | workerWakeFor k status dur =>
    simp only at h
    split at h
    · simp only [Option.some.injEq] at h; subst h
      unfold threadHandler_afterWaitFor
      rw [if_neg (by omega)]
      obtain ⟨a, b, _, c, d, e⟩ := locked_frame k _ w
      exact ⟨by rw [d]; exact h1, by rw [c]; exact h2, by rw [a]; exact h3, by rw [b]; exact h4,
        by rw [e h1]; exact h5⟩
    · simp at h
  | workerWake k =>
    simp only at h
    split at h
    · simp only [Option.some.injEq] at h; subst h
      obtain ⟨a, b, _, c, d, e⟩ := locked_frame k _ w
      exact ⟨by rw [d]; exact h1, by rw [c]; exact h2, by rw [a]; exact h3, by rw [b]; exact h4,
        by rw [e h1]; exact h5⟩
    · simp at h
  | workerFinish k =>
    simp only at h
    split at h
    · simp only [Option.some.injEq] at h; subst h
      exact ⟨h1, h2, h3, h4, h5⟩
    · simp at h

/-- An invariant kept by every transition that meets the side condition holds at the end of a run. -/
theorem run_along (P : World → Prop) (G : World → Op → Bool)
    (hstep : ∀ w op w1, G w op = true → P w → step w op = some w1 → P w1) :
    ∀ (ops : List Op) (w w1 : World), Along G w ops = true → P w → run w ops = some w1 → P w1 := by
  intro ops
  induction ops with
  | nil =>
    intro w w1 _ hP h
    simp only [run, Option.some.injEq] at h
    subst h
    exact hP
  | cons op ops ih =>
    intro w w1 hA hP h
    simp only [run] at h
    simp only [Along, Bool.and_eq_true] at hA
    cases hs : step w op with
    | none => rw [hs] at h; simp at h
    | some w2 =>
      rw [hs] at h hA
      exact ih w2 w1 hA.2 (hstep w op w2 hA.1 hP hs) h

/-- A side condition on the transition alone holds along a run when every transition meets it. -/
theorem along_of_forall (f : Op → Bool) :
    ∀ (ops : List Op) (w : World), (∀ op ∈ ops, f op = true) → Along (fun _ op => f op) w ops = true := by
  intro ops
  induction ops with
  | nil => intro w _; rfl
  | cons op ops ih =>
    intro w h
    simp only [Along, Bool.and_eq_true]
    refine ⟨h op (List.mem_cons_self _ _), ?_⟩
    split
    · rfl
    · exact ih _ (fun o ho => h o (List.mem_cons_of_mem _ ho))

/-- The number of values of `size_t`, written out. -/
theorem SIZE_MOD_eq : SIZE_MOD = 18446744073709551616 := by decide

/-- The locked stretch of `threadHandler`, run by a live worker that holds no
unit, keeps `CountInv`. -/
theorem locked_count {w : World} {k tid : Nat} {a : Worker} (h : w.workers[k]? = some a)
    (hb : a.phase.isBusy = false) (hl : a.phase.isLive = true) (hI : CountInv w) :
    CountInv (threadHandler_locked k tid w) := by
  obtain ⟨h1, h2, h3, h4, h5, h6⟩ := hI
  obtain ⟨x1, x2⟩ := set_counts { threadId := tid, phase := Phase.exited } h
  obtain ⟨f1, f2⟩ := set_counts { threadId := tid, phase := Phase.inWaitFor } h
  obtain ⟨g1, g2⟩ := set_counts { threadId := tid, phase := Phase.inWait } h
  rw [hb] at x1 f1 g1
  rw [hl] at x2 f2 g2
  simp only [Phase.isBusy, Phase.isLive, Bool.toNat_false, Bool.toNat_true] at x1 x2 f1 f2 g1 g2
  rw [SIZE_MOD_eq] at h1 h2 h3 h4
  unfold threadHandler_locked
  cases hq : w.taskQue_ with
  | nil =>
    simp only [CountInv, setPhase, SIZE_MOD_eq]
    split
    · refine ⟨h1, h2, h3, ?_, ?_, h6⟩ <;> dsimp only <;> omega
    · split
      · refine ⟨h1, h2, h3, ?_, ?_, h6⟩ <;> dsimp only <;> omega
      · refine ⟨h1, h2, h3, ?_, ?_, h6⟩ <;> dsimp only <;> omega
  | cons t rest =>
    obtain ⟨r1, r2⟩ := set_counts { threadId := tid, phase := Phase.running t } h
    rw [hb] at r1
    rw [hl] at r2
    simp only [Phase.isBusy, Phase.isLive, Bool.toNat_false, Bool.toNat_true] at r1 r2
    simp only [CountInv, setPhase, decr, SIZE_MOD_eq]
    split
    · refine ⟨h1, h2, ?_, ?_, ?_, h6⟩ <;> dsimp only <;> omega
    · refine ⟨h1, h2, ?_, ?_, ?_, h6⟩ <;> dsimp only <;> omega

/-- Every statement of `start` keeps `CountInv`, provided line 57 finds
`curThreadSize_` equal to 0. -/
theorem startStep_count {w w1 : World} (hI : CountInv w)
    (hG : startAtZero w Op.startStep = true)
    (h : ThreadPool.startStep w = Except.ok w1) : CountInv w1 := by
  obtain ⟨h1, h2, h3, h4, h5, h6⟩ := hI
  have hble := busy_le_live w.workers
  have hmax : INT_MAX < 18446744073709551616 := by decide
  unfold ThreadPool.startStep at h
  simp only [startAtZero] at hG
  rw [SIZE_MOD_eq] at *
  cases hp : w.startPc with
  | notInStart =>
    rw [hp] at h
    simp only [Except.ok.injEq] at h
    rw [← h]
    exact ⟨h1, h2, h3, h4, h5, h6⟩
  | afterFlag n =>
    rw [hp] at h h4 h5 h6
    simp only [Except.ok.injEq] at h
    rw [← h]
    simp only [StartPc.owed, StartPc.unlaunched, StartPc.wf] at h4 h5 h6 ⊢
    simp only [CountInv, StartPc.owed, StartPc.unlaunched, StartPc.wf, SIZE_MOD_eq]
    exact ⟨h1, h2, h3, h4, h5, by simpa using h6⟩
  | afterInit n =>
    rw [hp] at h h4 h5 h6 hG
    simp only [Except.ok.injEq] at h
    simp only [decide_eq_true_eq] at hG
    rw [← h]
    simp only [StartPc.owed, StartPc.unlaunched, StartPc.wf] at h4 h5 h6
    simp only [CountInv, StartPc.owed, StartPc.unlaunched, StartPc.wf, SIZE_MOD_eq]
    refine ⟨by omega, h2, h3, ?_, ?_, trivial⟩ <;> omega
  | creating i =>
    rw [hp] at h h4 h5 h6
    simp only [StartPc.owed, StartPc.unlaunched] at h4 h5
    dsimp only at h
    split at h
    · simp only [Except.ok.injEq] at h
      rw [← h]
      simp only [CountInv, StartPc.owed, StartPc.unlaunched, StartPc.wf, SIZE_MOD_eq]
      exact ⟨h1, h2, h3, h4, h5, trivial⟩
    · simp only [Except.ok.injEq] at h
      rw [← h]
      simp only [CountInv, StartPc.owed, StartPc.unlaunched, StartPc.wf, SIZE_MOD_eq]
      exact ⟨h1, h2, h3, h4, h5, Nat.zero_le _⟩
  | registering i threadId =>
    rw [hp] at h h4 h5 h6
    simp only [StartPc.owed, StartPc.unlaunched] at h4 h5
    simp only [Except.ok.injEq] at h
    rw [← h]
    simp only [CountInv, StartPc.owed, StartPc.unlaunched, StartPc.wf, SIZE_MOD_eq]
    exact ⟨h1, h2, h3, h4, h5, trivial⟩
  | launching i =>
    rw [hp] at h h4 h5 h6
    simp only [StartPc.owed, StartPc.unlaunched, StartPc.wf] at h4 h5 h6
    dsimp only at h
    split at h
    · rename_i hlt
      split at h
      · simp at h
      · rename_i th _
        simp only [Except.ok.injEq] at h
        rw [← h]
        have e := countBusy_append_atTop w.workers [th.threadId_]
        simp only [List.map_cons, List.map_nil, List.length_singleton] at e
        simp only [CountInv, StartPc.owed, StartPc.unlaunched, StartPc.wf, SIZE_MOD_eq,
          Thread.start]
        rw [e.1, e.2]
        refine ⟨h1, h2, h3, h4, ?_, hlt⟩
        omega
    · simp only [Except.ok.injEq] at h
      rw [← h]
      simp only [CountInv, StartPc.owed, StartPc.unlaunched, StartPc.wf, SIZE_MOD_eq]
      refine ⟨h1, h2, h3, ?_, ?_, trivial⟩ <;> omega
  | counting i =>
    rw [hp] at h h4 h5 h6
    simp only [StartPc.owed, StartPc.unlaunched, StartPc.wf] at h4 h5 h6
    simp only [Except.ok.injEq] at h
    rw [← h]
    simp only [CountInv, StartPc.owed, StartPc.unlaunched, StartPc.wf, SIZE_MOD_eq, incr]
    refine ⟨h1, h2, ?_, ?_, ?_, ?_⟩ <;> omega

/-- Every transition keeps `CountInv`, provided line 57 of `start` finds
`curThreadSize_` equal to 0. -/
theorem step_count {w w1 : World} {op : Op} (hI : CountInv w)
    (hG : startAtZero w op = true) (h : step w op = some w1) : CountInv w1 := by
  by_cases hS : op.isStart = true
  · cases op <;> simp [Op.isStart] at hS
    · obtain ⟨e1, e2, e3⟩ := step_startCall h
      obtain ⟨h1, h2, h3, h4, h5, h6⟩ := hI
      rw [e1] at h4 h5
      rw [e3]
      simp only [CountInv, StartPc.owed, StartPc.unlaunched, StartPc.wf] at h4 h5 ⊢
      exact ⟨h1, h2, h3, h4, h5, e2⟩
    · exact startStep_count hI hG (step_startStep h).1
  unfold step at h
  by_cases ht : op.typed = true
  swap
  · simp [ht] at h
  simp only [ht, not_true_eq_false, if_false] at h
  cases op with
  | start n => simp [Op.isStart] at hS
  | startStep => simp [Op.isStart] at hS
  | setPoolMode mode =>
    simp only [Option.some.injEq] at h; subst h
    unfold setPoolMode
    split
    · exact hI
    · exact hI
  | setTaskQueMaxThreshHold t =>
    simp only [Option.some.injEq] at h; subst h
    unfold setTaskQueMaxThreshHold
    split
    · exact hI
    · exact hI
  | setThreadMaxThreshHold t =>
    simp only [Option.some.injEq] at h; subst h
    simp only [Op.typed, decide_eq_true_eq] at ht
    unfold setThreadMaxThreshHold
    split
    · exact hI
    · split
      · exact ⟨hI.1, ht, hI.2.2⟩
      · exact hI
  | submitTask task =>
    simp only at h
    cases hs : ThreadPool.submitTask task w with
    | error e => rw [hs] at h; simp at h
    | ok r =>
      rw [hs] at h
      simp only [Option.some.injEq] at h; subst h
      obtain ⟨h1, h2, h3, h4, h5, h6⟩ := hI
      unfold ThreadPool.submitTask at hs
      split at hs
      · simp only [Except.ok.injEq] at hs; subst hs
        exact ⟨h1, h2, h3, h4, h5, h6⟩
      · dsimp only at hs
        split at hs
        · rename_i hC
          split at hs
          · simp at hs
          · rename_i th _
            simp only [Except.ok.injEq] at hs; subst hs
            have e3 := countBusy_append_atTop w.workers [th.threadId_]
            simp only [List.map_cons, List.map_nil, List.length_singleton] at e3
            simp only [CountInv, Thread.start, incr, SIZE_MOD_eq]
            rw [e3.1, e3.2]
            rw [SIZE_MOD_eq] at h1 h2 h3 h4
            refine ⟨?_, h2, ?_, ?_, ?_, h6⟩ <;> omega
        · simp only [Except.ok.injEq] at hs; subst hs
          exact ⟨h1, h2, h3, h4, h5, h6⟩
  | dtorFlag =>
    simp only [Option.some.injEq] at h; subst h
    exact hI
  | dtorNotify =>
    simp only [Option.some.injEq] at h; subst h
    exact hI
  | workerLock k =>
    simp only at h
    split at h
    · rename_i tid hw
      simp only [Option.some.injEq] at h; subst h
      exact locked_count hw rfl rfl hI
    · simp at h
  | workerWakeFor k status dur =>
    simp only at h
    split at h
    · rename_i tid hw
      simp only [Option.some.injEq] at h; subst h
      unfold threadHandler_afterWaitFor
      split
      · rename_i hc
        obtain ⟨h1, h2, h3, h4, h5, h6⟩ := hI
        obtain ⟨x1, x2⟩ := set_counts { threadId := tid, phase := Phase.exited } hw
        simp only [Phase.isBusy, Phase.isLive, Bool.toNat_false, Bool.toNat_true] at x1 x2
        simp only [CountInv, setPhase, decr, SIZE_MOD_eq]
        rw [SIZE_MOD_eq] at h1 h2 h3 h4
        refine ⟨?_, h2, ?_, ?_, ?_, h6⟩ <;> dsimp only <;> omega
      · exact locked_count hw rfl rfl hI
    · simp at h
  | workerWake k =>
    simp only at h
    split at h
    · rename_i tid hw
      simp only [Option.some.injEq] at h; subst h
      exact locked_count hw rfl rfl hI
    · simp at h
  | workerFinish k =>
    simp only at h
    split at h
    · rename_i tid task hw
      simp only [Option.some.injEq] at h; subst h
      obtain ⟨h1, h2, h3, h4, h5, h6⟩ := hI
      obtain ⟨x1, x2⟩ := set_counts { threadId := tid, phase := Phase.atTop } hw
      simp only [Phase.isBusy, Phase.isLive, Bool.toNat_false, Bool.toNat_true] at x1 x2
      simp only [threadHandler_finish, CountInv, setPhase, incr, SIZE_MOD_eq]
      rw [SIZE_MOD_eq] at h1 h2 h3 h4
      refine ⟨h1, h2, ?_, ?_, ?_, h6⟩ <;> dsimp only <;> omega
    · simp at h

/-- Outside a call of `start`, `CountInv` gives `threadIdelSize_ ≤ curThreadSize_`. -/
theorem count_idle_le {w : World} (hI : CountInv w) (hpc : w.startPc = StartPc.notInStart) :
    w.threadIdelSize_ ≤ w.curThreadSize_ := by
  obtain ⟨h1, h2, h3, h4, h5, _⟩ := hI
  have hble := busy_le_live w.workers
  rw [hpc] at h4 h5
  simp only [StartPc.owed, StartPc.unlaunched] at h4 h5
  rw [SIZE_MOD_eq] at h1 h3 h4
  omega

/-- Running a sequence in two parts. -/
theorem run_append (a b : List Op) : ∀ (w : World),
    run w (a ++ b) = (run w a).bind (fun w1 => run w1 b) := by
  induction a with
  | nil => intro w; rfl
  | cons op a ih =>
    intro w
    simp only [List.cons_append, run]
    cases step w op with
    | none => rfl
    | some w1 => exact ih w1

/-- A run whose first transition is taken continues from its successor. -/
theorem run_cons_of_step {w w1 : World} {op : Op} (ops : List Op) (h : step w op = some w1) :
    run w (op :: ops) = run w1 ops := by
  simp only [run, h]

/-- A run whose first transition cannot be taken does not exist. -/
theorem run_cons_of_none {w : World} {op : Op} (ops : List Op) (h : step w op = none) :
    run w (op :: ops) = none := by
  simp only [run, h]

/-- The first loop of `start` does not look at the position inside `start`. -/
theorem startCreate_pc (p : StartPc) : ∀ (k : Nat) (w : World),
    startCreate k { w with startPc := p } = { startCreate k w with startPc := p } := by
  intro k
  induction k with
  | zero => intro w; rfl
  | succ k ih =>
    intro w
    exact ih { w with generateId_ := incr w.generateId_
                      threads_ := emplace w.threads_ (Thread.getId { threadId_ := w.generateId_ })
                        { threadId_ := w.generateId_ } }

/-- The second loop of `start` does not look at the position inside `start`. -/
theorem startLaunch_pc (p : StartPc) : ∀ (k i : Nat) (w : World),
    startLaunch i k { w with startPc := p }
      = (match startLaunch i k w with
          | Except.ok w1 => Except.ok { w1 with startPc := p }
          | Except.error e => Except.error e) := by
  intro k
  induction k with
  | zero => intro i w; rfl
  | succ k ih =>
    intro i w
    cases hl : w.threads_.lookup i with
    | none =>
      simp only [startLaunch, hl]
    | some th =>
      have := ih (i + 1) { (th.start w) with threadIdelSize_ := incr (th.start w).threadIdelSize_ }
      simp only [startLaunch, hl]
      exact this

/-- Neither loop of `start`, run as a function, changes the position. -/
theorem start_pc {n : Nat} {w w1 : World} (h : ThreadPool.start n w = Except.ok w1) :
    w1.startPc = w.startPc := by
  have hc : ∀ (k : Nat) (v : World), (startCreate k v).startPc = v.startPc := by
    intro k
    induction k with
    | zero => intro v; rfl
    | succ k ih =>
      intro v
      exact ih { v with generateId_ := incr v.generateId_
                        threads_ := emplace v.threads_ (Thread.getId { threadId_ := v.generateId_ })
                          { threadId_ := v.generateId_ } }
  have hl : ∀ (k i : Nat) (v v1 : World), startLaunch i k v = Except.ok v1 →
      v1.startPc = v.startPc := by
    intro k
    induction k with
    | zero =>
      intro i v v1 hv
      simp only [startLaunch, Except.ok.injEq] at hv
      rw [← hv]
    | succ k ih =>
      intro i v v1 hv
      cases hlk : v.threads_.lookup i with
      | none => simp [startLaunch, hlk] at hv
      | some th =>
        simp only [startLaunch, hlk] at hv
        exact (ih (i + 1) _ v1 hv).trans rfl
  unfold ThreadPool.start at h
  split at h
  · simp at h
  · rw [hl _ _ _ _ h, hc]

/-- The statements of the first loop, run in a row, are `startCreate`. -/
theorem run_creating : ∀ (k i : Nat) (w : World),
    w.startPc = StartPc.creating i → i + k = w.initThreadSize_ →
    run w (List.replicate (2 * k + 1) Op.startStep)
      = some { startCreate k w with startPc := StartPc.launching 0 } := by
  intro k
  induction k with
  | zero =>
    intro i w hp hk
    have hs : step w Op.startStep = some { w with startPc := StartPc.launching 0 } := by
      simp only [step, Op.typed, not_true_eq_false, if_false, hp, ThreadPool.startStep]
      rw [if_neg (by omega)]
    rw [show 2 * 0 + 1 = 0 + 1 by rfl, List.replicate_succ, run_cons_of_step _ hs]
    rfl
  | succ k ih =>
    intro i w hp hk
    have hs : step w Op.startStep
        = some { w with generateId_ := incr w.generateId_
                        startPc := StartPc.registering i w.generateId_ } := by
      simp only [step, Op.typed, not_true_eq_false, if_false, hp, ThreadPool.startStep,
        Thread.getId]
      rw [if_pos (by omega)]
    have hs2 : step { w with generateId_ := incr w.generateId_
                             startPc := StartPc.registering i w.generateId_ } Op.startStep
        = some { startCreate 1 w with startPc := StartPc.creating (i + 1) } := by
      simp only [step, Op.typed, not_true_eq_false, if_false, ThreadPool.startStep]
      rfl
    have hi := ih (i + 1) { startCreate 1 w with startPc := StartPc.creating (i + 1) } rfl (by
      show i + 1 + k = (startCreate 1 w).initThreadSize_
      rw [(startCreate_fields 1 w).2.2.1]; omega)
    rw [show 2 * (k + 1) + 1 = (2 * k + 1) + 1 + 1 by omega, List.replicate_succ,
      List.replicate_succ, run_cons_of_step _ hs, run_cons_of_step _ hs2, hi, startCreate_pc]
    rfl

/-- The statements of the second loop, run in a row, are `startLaunch`. -/
theorem run_launching : ∀ (k i : Nat) (w : World),
    w.startPc = StartPc.launching i → i + k = w.initThreadSize_ →
    run w (List.replicate (2 * k + 1) Op.startStep)
      = (match startLaunch i k w with
          | Except.ok w1 => some { w1 with startPc := StartPc.notInStart }
          | Except.error _ => none) := by
  intro k
  induction k with
  | zero =>
    intro i w hp hk
    have hs : step w Op.startStep = some { w with startPc := StartPc.notInStart } := by
      simp only [step, Op.typed, not_true_eq_false, if_false, hp, ThreadPool.startStep]
      rw [if_neg (by omega)]
    rw [show 2 * 0 + 1 = 0 + 1 by rfl, List.replicate_succ, run_cons_of_step _ hs]
    rfl
  | succ k ih =>
    intro i w hp hk
    rw [show 2 * (k + 1) + 1 = (2 * k + 1) + 1 + 1 by omega, List.replicate_succ,
      List.replicate_succ]
    cases hl : w.threads_.lookup i with
    | none =>
      have hs : step w Op.startStep = none := by
        simp only [step, Op.typed, not_true_eq_false, if_false, hp, ThreadPool.startStep]
        rw [if_pos (by omega), hl]
      rw [run_cons_of_none _ hs]
      simp only [startLaunch, hl]
    | some th =>
      have hs : step w Op.startStep
          = some { th.start w with startPc := StartPc.counting i } := by
        simp only [step, Op.typed, not_true_eq_false, if_false, hp, ThreadPool.startStep]
        rw [if_pos (by omega), hl]
      have hs2 : step { th.start w with startPc := StartPc.counting i } Op.startStep
          = some { { (th.start w) with threadIdelSize_ := incr (th.start w).threadIdelSize_ }
                     with startPc := StartPc.launching (i + 1) } := by
        simp only [step, Op.typed, not_true_eq_false, if_false, ThreadPool.startStep]
      have hi := ih (i + 1)
        { { (th.start w) with threadIdelSize_ := incr (th.start w).threadIdelSize_ }
            with startPc := StartPc.launching (i + 1) } rfl (by
          show i + 1 + k = w.initThreadSize_
          omega)
      rw [run_cons_of_step _ hs, run_cons_of_step _ hs2, hi, startLaunch_pc]
      simp only [startLaunch, hl]
      cases startLaunch (i + 1) k
        { (th.start w) with threadIdelSize_ := incr (th.start w).threadIdelSize_ } with
      | error e => rfl
      | ok w1 => rfl

/-- A call of `start` whose statements run with no other thread moving in
between ends where `ThreadPool.start` ends, and faults when it faults. -/
theorem run_startOps (n : Nat) (w : World) (hp : w.startPc = StartPc.notInStart) :
    run w (startOps n)
      = (match ThreadPool.start n w with
          | Except.ok w1 => some w1
          | Except.error _ => none) := by
  unfold startOps
  by_cases hn : INT_MAX < n
  · have hs : step w (Op.start n) = none := by
      simp only [step, Op.typed, not_true_eq_false, if_false, hp, ThreadPool.startCall,
        if_pos hn]
    rw [run_cons_of_none _ hs]
    simp only [ThreadPool.start, if_pos hn]
  · have hs : step w (Op.start n)
        = some { w with isPoolRunning_ := true, startPc := StartPc.afterFlag n } := by
      simp only [step, Op.typed, not_true_eq_false, if_false, hp, ThreadPool.startCall,
        if_neg hn]
    have hs1 : step { w with isPoolRunning_ := true, startPc := StartPc.afterFlag n }
        Op.startStep
        = some { w with isPoolRunning_ := true, initThreadSize_ := n
                        startPc := StartPc.afterInit n } := by
      simp only [step, Op.typed, not_true_eq_false, if_false, ThreadPool.startStep]
    have hs2 : step { w with isPoolRunning_ := true, initThreadSize_ := n
                             startPc := StartPc.afterInit n } Op.startStep
        = some { { w with isPoolRunning_ := true, initThreadSize_ := n, curThreadSize_ := n }
                   with startPc := StartPc.creating 0 } := by
      simp only [step, Op.typed, not_true_eq_false, if_false, ThreadPool.startStep]
    have hc := run_creating n 0
      { { w with isPoolRunning_ := true, initThreadSize_ := n, curThreadSize_ := n }
          with startPc := StartPc.creating 0 } rfl (by simp)
    rw [startCreate_pc] at hc
    have hl := run_launching n 0
      { startCreate n { w with isPoolRunning_ := true, initThreadSize_ := n, curThreadSize_ := n }
          with startPc := StartPc.launching 0 } rfl (by
        show 0 + n = (startCreate n _).initThreadSize_
        rw [(startCreate_fields n _).2.2.1]; simp)
    rw [startLaunch_pc] at hl
    rw [run_cons_of_step _ hs,
      show 4 * n + 4 = (2 * n + 1 + (2 * n + 1)) + 1 + 1 by omega, List.replicate_succ,
      List.replicate_succ, run_cons_of_step _ hs1, run_cons_of_step _ hs2,
      List.replicate_add, run_append, hc, Option.bind, hl]
    simp only [ThreadPool.start, if_neg hn]
    cases hr : startLaunch 0 n
      (startCreate n { w with isPoolRunning_ := true, initThreadSize_ := n, curThreadSize_ := n })
      with
    | error e => rfl
    | ok w1 =>
      have hpc : w1.startPc = StartPc.notInStart := by
        have : ThreadPool.start n w = Except.ok w1 := by
          simp only [ThreadPool.start, if_neg hn]
          exact hr
        rw [start_pc this, hp]
      simp only [Option.some.injEq]
      rw [← hpc]

/-! ## `start` in the first pool of a process and in a later one -/

/-- A key is found in `idsFrom g k` exactly when it is one of the `k` ids from `g`. -/
theorem lookup_idsFrom (x : Nat) : ∀ (k g : Nat),
    (idsFrom g k).lookup x = if g ≤ x ∧ x < g + k then some { threadId_ := x } else none := by
  intro k
  induction k with
  | zero =>
    intro g
    rw [if_neg (by omega)]
    rfl
  | succ k ih =>
    intro g
    have e : idsFrom g (k + 1) = (g, { threadId_ := g }) :: idsFrom (g + 1) k := by
      simp [idsFrom, List.range'_succ]
    rw [e, List.lookup_cons, ih]
    by_cases hx : x = g
    · subst hx
      simp
    · have : (x == g) = false := by simpa using hx
      rw [this]
      by_cases h1 : g + 1 ≤ x ∧ x < g + 1 + k
      · rw [if_pos h1, if_pos (by omega)]
      · rw [if_neg h1, if_neg (by omega)]

/-- One more id is appended at the end. -/
theorem idsFrom_succ (g k : Nat) :
    idsFrom g (k + 1) = idsFrom g k ++ [(g + k, { threadId_ := g + k })] := by
  simp [idsFrom, List.range'_concat]

/-- The first loop of `start` appends consecutive ids from `generateId_`. -/
theorem startCreate_registry (g : Nat) : ∀ (k j : Nat) (w : World),
    w.threads_ = idsFrom g j → w.generateId_ = g + j → g + j + k < SIZE_MOD →
    (startCreate k w).threads_ = idsFrom g (j + k)
      ∧ (startCreate k w).generateId_ = g + j + k := by
  intro k
  induction k with
  | zero => intro j w h1 h2 _; exact ⟨h1, h2⟩
  | succ k ih =>
    intro j w h1 h2 h3
    simp only [startCreate]
    have hl : w.threads_.lookup w.generateId_ = none := by
      rw [h1, h2, lookup_idsFrom, if_neg (by omega)]
    have := ih (j + 1)
      { w with generateId_ := incr w.generateId_
               threads_ := emplace w.threads_ (Thread.getId { threadId_ := w.generateId_ })
                 { threadId_ := w.generateId_ } }
      (by
        simp only [Thread.getId, emplace, hl]
        rw [h1, h2, idsFrom_succ])
      (by
        simp only
        rw [incr_eq (by omega), h2]
        omega)
      (by omega)
    rw [show j + (k + 1) = j + 1 + k by omega, show g + j + (k + 1) = g + (j + 1) + k by omega]
    exact this

/-- Whenever an earlier `Thread` exists in the process (`generateId_` is not 0),
`start` with at least one worker on a new pool calls through a null pointer. -/
theorem start_faults_unless_first (g n : Nat) (hg : 0 < g) (hn : 0 < n) (hmax : n ≤ INT_MAX)
    (hwrap : g + n < SIZE_MOD) :
    ThreadPool.start n (ThreadPool.construct g) = Except.error Fault.nullDeref := by
  unfold ThreadPool.start
  rw [if_neg (by omega)]
  obtain ⟨h1, _⟩ := startCreate_registry g n 0
    { ThreadPool.construct g with
        isPoolRunning_ := true, initThreadSize_ := n, curThreadSize_ := n }
    rfl rfl (by omega)
  obtain ⟨m, rfl⟩ : ∃ m, n = m + 1 := ⟨n - 1, by omega⟩
  simp only [startLaunch]
  rw [h1, lookup_idsFrom, if_neg (by omega)]

/-- With the ids `0 .. n - 1` registered, the second loop of `start` starts them
in order. -/
theorem startLaunch_registry (n : Nat) : ∀ (k i : Nat) (w : World),
    w.threads_ = idsFrom 0 n → i + k ≤ n → w.threadIdelSize_ + k < SIZE_MOD →
    ∃ w1, startLaunch i k w = Except.ok w1
      ∧ w1.workers = w.workers
          ++ (List.range' i k).map (fun t => { threadId := t, phase := Phase.atTop })
      ∧ w1.threadIdelSize_ = w.threadIdelSize_ + k
      ∧ w1.threads_ = w.threads_ ∧ w1.curThreadSize_ = w.curThreadSize_
      ∧ w1.isPoolRunning_ = w.isPoolRunning_ := by
  intro k
  induction k with
  | zero => intro i w _ _ _; exact ⟨w, rfl, by simp, rfl, rfl, rfl, rfl⟩
  | succ k ih =>
    intro i w h1 h2 h3
    simp only [startLaunch]
    rw [h1, lookup_idsFrom, if_pos (by omega)]
    simp only
    obtain ⟨w1, e1, e2, e3, e4, e5, e6⟩ := ih (i + 1)
      { (Thread.start { threadId_ := i } w) with
          threadIdelSize_ := incr (Thread.start { threadId_ := i } w).threadIdelSize_ }
      (by simpa [Thread.start] using h1) (by omega)
      (by
        simp only [Thread.start]
        rw [incr_eq (by omega)]
        omega)
    simp only [Thread.start] at e2 e3 e4 e5 e6
    refine ⟨w1, e1, ?_, ?_, ?_, ?_, ?_⟩
    · rw [e2]
      simp [List.range'_succ]
    · rw [e3, incr_eq (by omega)]
      omega
    · rw [e4, h1]
    · rw [e5]
    · rw [e6]

/-- In the first pool of a process (`generateId_` is 0) `start(n)` does what its
contract says: `n` workers with ids `0 .. n - 1`, all started, both counters `n`. -/
theorem start_first_pool (n : Nat) (hmax : n ≤ INT_MAX) :
    ∃ w1, ThreadPool.start n (ThreadPool.construct 0) = Except.ok w1
      ∧ w1.isPoolRunning_ = true
      ∧ w1.threads_ = idsFrom 0 n
      ∧ w1.workers = (List.range' 0 n).map (fun t => { threadId := t, phase := Phase.atTop })
      ∧ w1.curThreadSize_ = n ∧ w1.threadIdelSize_ = n := by
  have hS : INT_MAX < SIZE_MOD := by decide
  unfold ThreadPool.start
  rw [if_neg (by omega)]
  obtain ⟨h1, _⟩ := startCreate_registry 0 n 0
    { ThreadPool.construct 0 with
        isPoolRunning_ := true, initThreadSize_ := n, curThreadSize_ := n }
    rfl rfl (by omega)
  obtain ⟨c1, c2, c3, c4, c5, c6⟩ := startCreate_fields n
    { ThreadPool.construct 0 with
        isPoolRunning_ := true, initThreadSize_ := n, curThreadSize_ := n }
  simp only [Nat.zero_add] at h1
  obtain ⟨w1, e1, e2, e3, e4, e5, e6⟩ := startLaunch_registry n n 0 _ h1 (by omega)
    (by rw [c5]; show 0 + n < SIZE_MOD; omega)
  refine ⟨w1, e1, ?_, ?_, ?_, ?_, ?_⟩
  · rw [e6, c2]
  · rw [e4, h1]
  · rw [e2, c6]; rfl
  · rw [e5, c4]
  · rw [e3, c5]; show 0 + n = n; omega

/-! ## Two supporting facts about the locked stretch of `threadHandler` -/

/-- Entered at the test of the `while` with a non-empty queue, the locked stretch
removes nobody from the registry and takes the oldest unit. -/
theorem locked_takes_front (k tid : Nat) (w : World) (t : Task) (rest : List Task)
    (hq : w.taskQue_ = t :: rest) :
    (threadHandler_locked k tid w).threads_ = w.threads_
      ∧ (threadHandler_locked k tid w).taskQue_ = rest
      ∧ (threadHandler_locked k tid w).taskSize_ = decr w.taskSize_
      ∧ (threadHandler_locked k tid w).threadIdelSize_ = decr w.threadIdelSize_
      ∧ (threadHandler_locked k tid w).workers
          = w.workers.set k { threadId := tid, phase := Phase.running t } := by
  unfold threadHandler_locked
  rw [hq]
  dsimp only [setPhase]
  split <;> exact ⟨rfl, rfl, rfl, rfl, rfl⟩

/-- Entered at the test of the `while` with an empty queue and the flag down, the
locked stretch erases the worker and then notifies `exitCond_`. -/
theorem locked_shutdown_exit (k tid : Nat) (w : World) (hq : w.taskQue_ = [])
    (hr : w.isPoolRunning_ = false) :
    (threadHandler_locked k tid w).threads_ = erase w.threads_ tid
      ∧ (threadHandler_locked k tid w).signals = w.signals ++ [Cond.exitCond]
      ∧ (threadHandler_locked k tid w).workers
          = w.workers.set k { threadId := tid, phase := Phase.exited } := by
  unfold threadHandler_locked
  rw [hq]
  dsimp only [setPhase]
  rw [if_pos (by simp [hr])]
  exact ⟨rfl, rfl, rfl⟩

/-! ## Supporting facts on the idle counter and on fresh ids -/

/-- Inside a call of `start` the idle counter can exceed the worker counter: with
one unit queued beforehand, the worker launched at line 72 decrements
`threadIdelSize_` from 0 before line 73 increments it. -/
theorem idle_wraps_inside_start :
    ∃ w, run (ThreadPool.construct 0) earlyWorkerTrace = some w
      ∧ w.startPc = StartPc.counting 0
      ∧ w.curThreadSize_ = 1 ∧ w.threadIdelSize_ = 18446744073709551615 :=
  ⟨_, rfl, rfl, rfl, rfl⟩

/-- C1: when the queue holds at least `taskQueMaxThreshHold_` units at the end of
the bounded wait, `submitTask` returns the future of the local packaged task that
was already invoked and holds `RType()`, and the whole state (queue, `taskSize_`,
worker counters, registry, the log of units run) is unchanged. -/
theorem submitTask_rejected_default (task : Task) (w : World)
    (hFull : w.taskQueMaxThreshHold_ ≤ w.taskQue_.length) :
    ThreadPool.submitTask task w = Except.ok (w, Future.readyDefault) := by
  unfold ThreadPool.submitTask
  rw [if_pos (Nat.not_lt.mpr hFull)]

/-- Instance of C1: a third submission to a pool whose queue holds two units. -/
theorem submitTask_rejected_default_witness :
    fullPool.taskQueMaxThreshHold_ ≤ fullPool.taskQue_.length
      ∧ ThreadPool.submitTask 13 fullPool = Except.ok (fullPool, Future.readyDefault) :=
  ⟨by decide, submitTask_rejected_default 13 fullPool (by decide)⟩

/-- C2, as stated, fails: two submissions before `start` followed by
`setTaskQueMaxThreshHold(1)` leave two units queued under a capacity of one. -/
theorem queue_bound_broken_by_capacity_change :
    ∃ w, run (ThreadPool.construct 0)
        [Op.submitTask 7, Op.submitTask 8, Op.setTaskQueMaxThreshHold 1] = some w
      ∧ w.taskQue_ = [7, 8] ∧ w.taskSize_ = 2 ∧ w.taskQueMaxThreshHold_ = 1
      ∧ ¬ (w.taskSize_ ≤ w.taskQueMaxThreshHold_) := by
  refine ⟨_, rfl, rfl, rfl, rfl, ?_⟩
  decide

/-- C2, amended: in every state reachable from a freshly constructed pool by any
sequence of transitions, `taskSize_` equals the queue length; and it is at most
the configured capacity provided every capacity change that took effect set a
capacity not below the number of units queued at that moment. -/
theorem queue_bound_reachable (g : Nat) (ops : List Op) (w : World)
    (hRun : run (ThreadPool.construct g) ops = some w) :
    w.taskSize_ = w.taskQue_.length
      ∧ (Along capacityKept (ThreadPool.construct g) ops = true →
          w.taskSize_ ≤ w.taskQueMaxThreshHold_) := by
  have h0 : QueueInv (ThreadPool.construct g) :=
    ⟨rfl, (by decide : 0 < SIZE_MOD), (by decide : TASK_MAX_THRESHOLD < SIZE_MOD)⟩
  constructor
  · have := run_along QueueInv (fun _ _ => true)
      (fun w op w1 _ hP hs => (step_queue hP hs).1) ops _ _
      (along_of_forall (fun _ => true) ops _ (fun _ _ => rfl)) h0 hRun
    exact this.1
  · intro hA
    have := run_along (fun w => QueueInv w ∧ w.taskQue_.length ≤ w.taskQueMaxThreshHold_)
      capacityKept
      (fun w op w1 hG hP hs => ⟨(step_queue hP.1 hs).1, (step_queue hP.1 hs).2 hG hP.2⟩)
      ops _ _ hA ⟨h0, (by decide : 0 ≤ TASK_MAX_THRESHOLD)⟩ hRun
    rw [this.1.1]
    exact this.2

/-- Instance of amended C2: a capacity lowered to the number of units queued. -/
theorem queue_bound_reachable_witness :
    ∃ w, run (ThreadPool.construct 0) boundedTrace = some w
      ∧ Along capacityKept (ThreadPool.construct 0) boundedTrace = true
      ∧ w.taskSize_ = w.taskQue_.length ∧ w.taskSize_ ≤ w.taskQueMaxThreshHold_ :=
  ⟨_, rfl, rfl, (queue_bound_reachable 0 boundedTrace _ rfl).1,
    (queue_bound_reachable 0 boundedTrace _ rfl).2 rfl⟩

/-- C3, failing input: in a process where one `Thread` was constructed before
(`generateId_` is 1), `start(1)` on a new pool registers its worker under key 1,
then evaluates `threads_[0]->start()` on the absent key 0: a call through a null
pointer.  The worker is never started. -/
theorem start_faults_when_ids_taken :
    (ThreadPool.startCreate 1
        { ThreadPool.construct 1 with
            isPoolRunning_ := true, initThreadSize_ := 1, curThreadSize_ := 1 }).threads_
        = [(1, { threadId_ := 1 })]
      ∧ ThreadPool.start 1 (ThreadPool.construct 1) = Except.error Fault.nullDeref :=
  ⟨rfl, rfl⟩

/-- C4, as stated, fails: in cached mode a submission made before `start` spawns
a worker (both counters become 1), and `start(0)` then resets only
`curThreadSize_`, leaving one idle worker counted against zero workers after
`start` has returned. -/
theorem idle_exceeds_cur_after_late_start :
    ∃ w, run (ThreadPool.construct 0)
        ([Op.setPoolMode PoolMode.MODE_CACHED, Op.submitTask 7] ++ startOps 0) = some w
      ∧ w.startPc = StartPc.notInStart
      ∧ w.threadIdelSize_ = 1 ∧ w.curThreadSize_ = 0
      ∧ ¬ (w.threadIdelSize_ ≤ w.curThreadSize_) := by
  refine ⟨_, rfl, rfl, rfl, rfl, ?_⟩
  decide

/-- C4, amended: in every state reachable from a freshly constructed pool by
public operations, the statements of `start`, the teardown and worker moves in
any interleaving, provided each call of `start` finds `curThreadSize_` equal to 0
when line 57 assigns it, `curThreadSize_` equals, modulo `2 ^ 64`,
`threadIdelSize_` plus the workers holding a unit plus the increments of line 73
that the call of `start` in progress has yet to make; and
`threadIdelSize_ ≤ curThreadSize_` (as `size_t` values, with wrapping
decrements) whenever no call of `start` is in progress. -/
theorem idle_le_cur_outside_start (g : Nat) (ops : List Op) (w : World)
    (hRun : run (ThreadPool.construct g) ops = some w)
    (hZero : Along startAtZero (ThreadPool.construct g) ops = true) :
    (w.threadIdelSize_ + countBusy w.workers + w.startPc.owed w.initThreadSize_) % SIZE_MOD
        = w.curThreadSize_
      ∧ (w.startPc = StartPc.notInStart → w.threadIdelSize_ ≤ w.curThreadSize_) := by
  have h0 : CountInv (ThreadPool.construct g) :=
    ⟨(by decide : 0 < SIZE_MOD), (by decide : THREAD_MAX_THRESHHOLD < SIZE_MOD),
      (by decide : 0 < SIZE_MOD), (by decide : (0 + 0 + 0) % SIZE_MOD = 0), Nat.le_refl 0,
      trivial⟩
  have hI : CountInv w :=
    run_along CountInv startAtZero (fun w op w1 hG hP hs => step_count hP hG hs) ops _ _
      hZero h0 hRun
  exact ⟨hI.2.2.2.1, count_idle_le hI⟩

/-- Instance of amended C4: the run in which a worker takes a unit between lines
72 and 73 of `start`; once `start` has returned and the unit is done, the idle
counter equals the worker counter. -/
theorem idle_le_cur_outside_start_witness :
    ∃ w, run (ThreadPool.construct 0) earlyWorkerDone = some w
      ∧ Along startAtZero (ThreadPool.construct 0) earlyWorkerDone = true
      ∧ w.startPc = StartPc.notInStart
      ∧ w.threadIdelSize_ ≤ w.curThreadSize_ :=
  ⟨_, rfl, rfl, rfl, (idle_le_cur_outside_start 0 earlyWorkerDone _ rfl rfl).2 rfl⟩

/-- C6: for a pool in `MODE_FIXED` on which `start(n)` has returned, in every
state reachable by submissions, setter calls and worker moves (no second `start`,
no teardown) the pool is still running, `curThreadSize_` is `n`, and the registry
is the one `start` left: no submission spawned a worker and no worker was
reclaimed. -/
theorem fixed_mode_constant (w0 w1 w : World) (n : Nat) (ops : List Op)
    (hMode : w0.poolMode_ = PoolMode.MODE_FIXED)
    (hStart : ThreadPool.start n w0 = Except.ok w1)
    (hOps : ∀ op ∈ ops, op.isStart = false ∧ op.isTeardown = false)
    (hRun : run w1 ops = some w) :
    w.isPoolRunning_ = true ∧ w.curThreadSize_ = n ∧ w.threads_ = w1.threads_ := by
  obtain ⟨s1, s2, s3, s4, s5, _⟩ := start_ok_fields hStart
  simp only [World.frame, Prod.mk.injEq] at s2
  have hI1 : FixedInv n w1.threads_ w1 :=
    ⟨s3, by rw [s2.2.2.2.2.1]; exact hMode, s5, s4, rfl⟩
  have hI := run_along (FixedInv n w1.threads_) (fun _ op => !op.isStart && !op.isTeardown)
    (fun w op w2 hG hP hs => by
      simp only [Bool.and_eq_true, Bool.not_eq_eq_eq_not, Bool.not_true] at hG
      exact step_fixed hP hG.1 hG.2 hs) ops _ _
    (along_of_forall (fun op => !op.isStart && !op.isTeardown) ops _
      (fun op ho => by simp [hOps op ho])) hI1 hRun
  exact ⟨hI.1, hI.2.2.1, hI.2.2.2.2⟩

/-- Instance of C6: a fixed pool of two workers under submissions, setter calls
and worker moves. -/
theorem fixed_mode_constant_witness :
    ∃ w1 w, (ThreadPool.construct 0).poolMode_ = PoolMode.MODE_FIXED
      ∧ ThreadPool.start 2 (ThreadPool.construct 0) = Except.ok w1
      ∧ (∀ op ∈ fixedTrace, op.isStart = false ∧ op.isTeardown = false)
      ∧ run w1 fixedTrace = some w
      ∧ w.isPoolRunning_ = true ∧ w.curThreadSize_ = 2 ∧ w.threads_ = w1.threads_ :=
  ⟨_, _, rfl, rfl, by decide, rfl,
    fixed_mode_constant (ThreadPool.construct 0) _ _ 2 fixedTrace rfl rfl (by decide) rfl⟩

/-- C7: while `isPoolRunning_` is true, `setPoolMode`, `setTaskQueMaxThreshHold`
and `setThreadMaxThreshHold` return the state they were given, whatever the
argument. -/
theorem setters_frozen_while_running (w : World) (hRun : w.isPoolRunning_ = true)
    (mode : PoolMode) (threshhold : Nat) :
    ThreadPool.setPoolMode mode w = w
      ∧ ThreadPool.setTaskQueMaxThreshHold threshhold w = w
      ∧ ThreadPool.setThreadMaxThreshHold threshhold w = w := by
  simp [ThreadPool.setPoolMode, ThreadPool.setTaskQueMaxThreshHold,
    ThreadPool.setThreadMaxThreshHold, ThreadPool.checkRunningState, hRun]

/-- Instance of C7: the three setters on a started pool. -/
theorem setters_frozen_while_running_witness :
    runningPool.isPoolRunning_ = true
      ∧ ThreadPool.setPoolMode PoolMode.MODE_CACHED runningPool = runningPool
      ∧ ThreadPool.setTaskQueMaxThreshHold 7 runningPool = runningPool
      ∧ ThreadPool.setThreadMaxThreshHold 7 runningPool = runningPool :=
  ⟨rfl, setters_frozen_while_running runningPool rfl PoolMode.MODE_CACHED 7⟩

/-- C9, failing input: worker 0 of a cached pool started with `start(0)` is
blocked in `wait_for` when the destructor lowers the flag and notifies; its wait
returns `timeout` after two idle seconds.  The worker erases itself, the
registry becomes empty, and no `notify_all` on `exitCond_` is issued: the log of
notifications is the same before and after. -/
theorem reclaim_exit_sends_no_exit_signal :
    ∃ w0 w, run (ThreadPool.construct 0) (loneWorkerTrace ++ [Op.dtorFlag, Op.dtorNotify])
        = some w0
      ∧ w0.isPoolRunning_ = false ∧ w0.threads_ = [(0, { threadId_ := 0 })]
      ∧ step w0 (Op.workerWakeFor 0 CvStatus.timeout 2) = some w
      ∧ w.threads_ = [] ∧ w.workers = [{ threadId := 0, phase := Phase.exited }]
      ∧ w.signals = w0.signals ∧ Cond.exitCond ∉ w.signals := by
  refine ⟨_, _, rfl, rfl, rfl, rfl, rfl, rfl, rfl, ?_⟩
  decide

/-- C10, failing input: worker 0 of a cached pool started with `start(0)` is
blocked in `wait_for` when unit 2 is submitted and the destructor lowers the
flag; its wait returns `timeout` after two idle seconds.  With unit 2 still
queued the worker erases itself from the registry and returns; the registry is
empty and unit 2 is never dequeued. -/
theorem reclaim_exit_leaves_unit_queued :
    ∃ w0 w, run (ThreadPool.construct 0) (loneWorkerTrace ++ [Op.submitTask 2, Op.dtorFlag])
        = some w0
      ∧ w0.taskQue_ = [2] ∧ w0.threads_ = [(0, { threadId_ := 0 })]
      ∧ step w0 (Op.workerWakeFor 0 CvStatus.timeout 2) = some w
      ∧ w.threads_ = [] ∧ w.workers = [{ threadId := 0, phase := Phase.exited }]
      ∧ w.taskQue_ = [2] ∧ w.taskSize_ = 1 ∧ w.ran = [1] :=
  ⟨_, _, rfl, rfl, rfl, rfl, rfl, rfl, rfl, rfl, rfl⟩

end FlexiThreadPool
